import Mathlib

/-!
# talosmon: the per-machine status manager and the machine grid

A shallow embedding of `machine/machine.go` (the `Manager`) and of the build
part of `machine.go` (`machineStatusGrid`), followed by the properties of the
staleness rule, the poll tick, `Stop`, `NewManager` and the grid build.

Conventions of the embedding.

* Instants are readings of the monotonic clock in nanoseconds, held in an `Int`
  that stands for the `int64` the runtime keeps; durations are `int64`
  nanoseconds as well.
* A Go map with string keys is an association list, read with `List.lookup`.
  A nil map is `none`, an allocated one `some l`.
* Pointers to records that this code never shares between two owners
  (`*Status`, `*ServiceInfo`, `*Pinger`) are the records themselves.  The one
  shared pointer, the Talos client handed to every manager, is threaded as an
  explicit `Client` state next to the managers.
* A call ends in one of three ways, see `Result`.
* Everything outside the repository (address resolution, the RPC answers, the
  arrival of echo replies, the clock) is an input of the definitions.
-/

namespace Talosmon

/-! ## Go-level plumbing -/

/-- Error values built with `eris.New` and `eris.Wrapf`, or handed over by an
external library. -/
inductive GoError where
  | New (msg : String)
  | Wrapf (cause : GoError) (format : String) (arg : String)
  | External (msg : String)
  deriving DecidableEq

/-- How a call ends: it returns a value, it returns a non-nil `error`, or the
goroutine panics. -/
inductive Result (α : Type) where
  | ok (a : α)
  | err (e : GoError)
  | panic (msg : String)
  deriving DecidableEq

/-- Association-list model of a Go `map[string]α`. -/
abbrev GoMap (α : Type) := List (String × α)

/-- Map assignment `m[k] = v`: overwrite the entry of `k`, or add one. -/
def GoMap.set {α : Type} : GoMap α → String → α → GoMap α
  | [], k, v => [(k, v)]
  | (k', v') :: rest, k, v =>
    if k' = k then (k, v) :: rest else (k', v') :: GoMap.set rest k v

/-! ## Time -/

/-- Lower end of `int64`. -/
def minInt64 : Int := -9223372036854775808

/-- Upper end of `int64`. -/
def maxInt64 : Int := 9223372036854775807

/-- Membership in the `int64` range. -/
def isInt64 (x : Int) : Prop := minInt64 ≤ x ∧ x ≤ maxInt64

instance isInt64.decidable (x : Int) : Decidable (isInt64 x) := by
  unfold isInt64; infer_instance

/-- Two's complement wrap-around of an integer into `int64`. -/
def wrapInt64 (x : Int) : Int :=
  (x + 9223372036854775808) % 18446744073709551616 - 9223372036854775808

/-- One second, `time.Second`, in nanoseconds. -/
def Second : Int := 1000000000

/-- Constant `StateUnknown`. -/
def StateUnknown : String := "unknown"

/-- Constant `pingThreshold = 2 * time.Second`. -/
def pingThreshold : Int := 2 * Second

/-- Constant `serviceCheckInterval = 2 * time.Second`. -/
def serviceCheckInterval : Int := 2 * Second

/-- `Time.Sub` on two instants that both carry a monotonic reading: the
wrapped `int64` difference, saturated when the true difference left the
range. -/
def subMono (t u : Int) : Int :=
  let d := wrapInt64 (t - u)
  if d < 0 ∧ t > u then maxInt64
  else if d > 0 ∧ t < u then minInt64
  else d

/-- `time.Since(ts)` read at the instant `now`. -/
def Since (now ts : Int) : Int := subMono now ts

/-! ## Data model of `machine/machine.go` -/

/-- A `net.IP` field of the configuration: `none` is the nil slice of an
address that the configuration leaves out, `some s` an address whose textual
form is `s`. -/
abbrev IP := Option String

/-- `net.IP.String`: the nil address prints as `<nil>`. -/
def IP.String : IP → String
  | none => "<nil>"
  | some s => s

/-- Type `Spec`, the specification of a machine. -/
structure Spec where
  Name : String
  FQDN : String
  IPMIAddr : IP
  IPv4Addr : IP
  IPv6Addr : IP
  deriving DecidableEq

/-- The two fields of the Talos `machine.ServiceInfo` that this code reads or
writes. -/
structure ServiceInfo where
  Id : String
  State : String
  deriving DecidableEq

/-- One message of a `ServiceListResponse` (one per answering node). -/
structure ServiceList where
  Services : List ServiceInfo
  deriving DecidableEq

/-- Talos `VersionInfo`, of which only the tag is read. -/
structure VersionInfo where
  Tag : String
  deriving DecidableEq

/-- One message of a `VersionResponse`; the version pointer may be nil. -/
structure VersionMsg where
  Version : Option VersionInfo
  deriving DecidableEq

/-- Getter chain `msg.GetVersion().GetTag()`: nil-safe, the empty string on a
nil version. -/
def VersionMsg.GetTag (msg : VersionMsg) : String :=
  match msg.Version with
  | none => ""
  | some v => v.Tag

/-- Outcome of the `ServiceList` RPC: an error, or the list of messages. -/
abbrev ServiceListResp := Except GoError (List ServiceList)

/-- Outcome of the `Version` RPC: an error, or the list of messages. -/
abbrev VersionResp := Except GoError (List VersionMsg)

/-- Type `Status`; the three liveness booleans are declared but never used. -/
structure Status where
  IPMI : Bool
  HostV4 : Bool
  HostV6 : Bool
  TalosVersion : String
  Services : List ServiceInfo
  deriving DecidableEq

/-- Value of `new(Status)`. -/
def Status.new : Status :=
  { IPMI := false, HostV4 := false, HostV6 := false, TalosVersion := "", Services := [] }

/-- A `ping.Pinger` as far as the manager is concerned: the address it was
created for, the address it resolved to, and whether its `done` channel has
been closed. -/
structure Pinger where
  addr : String
  ipaddr : String
  done : Bool
  deriving DecidableEq

/-- State of the Talos client handle that all managers of a process share. -/
structure Client where
  closed : Bool
  deriving DecidableEq

/-- Type `Manager`.  The field `client` records whether the pointer is non-nil;
the handle it points to is the shared `Client` state. -/
structure Manager where
  Spec : Spec
  Status : Status
  client : Bool
  pingers : Option (GoMap Pinger)
  pingTimestamps : Option (GoMap Int)
  deriving DecidableEq

/-! ## Accessors -/

/-- The two-valued map read `ts, ok := m.pingTimestamps[kind]`; a nil map has
no entry. -/
def Manager.readTimestamp (m : Manager) (kind : String) : Option Int :=
  match m.pingTimestamps with
  | none => none
  | some stamps => stamps.lookup kind

/-- Method `PingUp`, read at the instant `now`: a missing timestamp gives
`false`, otherwise the age of the timestamp is compared with `pingThreshold`. -/
def Manager.PingUp (m : Manager) (now : Int) (kind : String) : Bool :=
  match m.readTimestamp kind with
  | none => false
  | some ts => decide (Since now ts < pingThreshold)

/-- The loop of `ServiceState`: the state of the first entry with the given
id, `StateUnknown` when the loop runs out. -/
def serviceStateLoop : List ServiceInfo → String → String
  | [], _ => StateUnknown
  | s :: rest, name => if s.Id = name then s.State else serviceStateLoop rest name

/-- Method `ServiceState`. -/
def Manager.ServiceState (m : Manager) (name : String) : String :=
  serviceStateLoop m.Status.Services name

/-- Method `Version`. -/
def Manager.Version (m : Manager) : String :=
  m.Status.TalosVersion

/-! ## The poller -/

/-- The first loop of `updateServiceStatus`: every entry gets `StateUnknown`. -/
def resetStates (services : List ServiceInfo) : List ServiceInfo :=
  services.map fun s => { s with State := StateUnknown }

/-- Method `updateServiceStatus`, given the outcome of the `ServiceList` RPC:
reset all states, then, if the RPC returned no error, assign the services of
each message in turn to the table (so the last message stays). -/
def Manager.updateServiceStatus (m : Manager) (resp : ServiceListResp) : Manager :=
  let reset : Talosmon.Status := { m.Status with Services := resetStates m.Status.Services }
  match resp with
  | .error _ => { m with Status := reset }
  | .ok messages =>
    { m with Status :=
        messages.foldl (fun st msg => { st with Services := msg.Services }) reset }

/-- Method `updateVersion`, given the outcome of the `Version` RPC: if the RPC
returned no error, assign the tag of each message in turn. -/
def Manager.updateVersion (m : Manager) (resp : VersionResp) : Manager :=
  match resp with
  | .error _ => m
  | .ok messages =>
    { m with Status :=
        messages.foldl (fun st msg => { st with TalosVersion := msg.GetTag }) m.Status }

/-- The version that the spec prescribes after a tick, from the prior version
and the outcome of the `Version` RPC alone: the prior version on a failure (and
on an answer without any message), the tag of the answer otherwise, the last
message counting. -/
def versionAfter (prior : String) (ver : VersionResp) : String :=
  match ver with
  | .error _ => prior
  | .ok messages =>
    match messages.getLast? with
    | none => prior
    | some msg => msg.GetTag

/-- The state that a reported list gives for a service id: that of the first
entry with this id, `unknown` if there is none. -/
def reportedState (reported : List ServiceInfo) (id : String) : String :=
  match reported.find? (fun s => s.Id = id) with
  | none => "unknown"
  | some s => s.State

/-- The `time.After` case of `watchServices`: one poll tick. -/
def Manager.pollTick (m : Manager) (svc : ServiceListResp) (ver : VersionResp) : Manager :=
  (m.updateServiceStatus svc).updateVersion ver

/-- What the `select` of `watchServices` picks in one iteration. -/
inductive Select where
  | done
  | tick (svc : ServiceListResp) (ver : VersionResp)

/-- Whether a `select` outcome is a tick whose `Version` RPC failed, or `done`. -/
def Select.versionFailed : Select → Prop
  | .done => True
  | .tick _ (.error _) => True
  | .tick _ (.ok _) => False

/-- Method `watchServices` along the sequence of its `select` outcomes; the
loop returns at the first `done`. -/
def Manager.watchServices : Manager → List Select → Manager
  | m, [] => m
  | m, .done :: _ => m
  | m, .tick svc ver :: rest => (m.pollTick svc ver).watchServices rest

/-! ## Probers -/

/-- Library function `ping.NewPinger`: resolve the address and return a fresh pinger
whose `done` channel is open.  The resolver is an input. -/
def NewPinger (resolve : String → Except GoError String) (addr : String) :
    Except GoError Pinger :=
  match resolve addr with
  | .error e => .error e
  | .ok ip => .ok { addr := addr, ipaddr := ip, done := false }

/-- Method `addPinger`: a failed `NewPinger` is wrapped and returned before
anything is written; otherwise the pinger is stored under `kind` (an
assignment into a nil map panics) and started. -/
def Manager.addPinger (resolve : String → Except GoError String) (m : Manager)
    (kind addr : String) : Result Manager :=
  match NewPinger resolve addr with
  | .error e => .err (.Wrapf e "failed to create %q pinger" kind)
  | .ok p =>
    match m.pingers with
    | none => .panic "assignment to entry in nil map"
    | some ps => .ok { m with pingers := some (GoMap.set ps kind p) }

/-- The `OnRecv` callback that `addPinger` installs for `kind`, run at the
instant `now`. -/
def Manager.OnRecv (m : Manager) (kind : String) (now : Int) : Result Manager :=
  match m.pingTimestamps with
  | none => .panic "assignment to entry in nil map"
  | some stamps => .ok { m with pingTimestamps := some (GoMap.set stamps kind now) }

/-- The loop of `Stop` over the registered pingers, returning the pinger
objects as the loop leaves them.  The library's `Stop` closes the pinger's
`done` channel, so stopping a pinger whose channel is already closed is a
panic. -/
def stopPingers : GoMap Pinger → Result (GoMap Pinger)
  | [] => .ok []
  | (k, v) :: rest =>
    if v.done then .panic "close of closed channel"
    else
      match stopPingers rest with
      | .ok stopped => .ok ((k, { v with done := true }) :: stopped)
      | .err e => .err e
      | .panic msg => .panic msg

/-- The body of `Stop`, on the manager and the shared client handle: stop every
registered pinger, set the map to nil, close the client if the pointer is
non-nil (the error of closing a closed handle is dropped).  Next to the
manager and the client it returns the pinger objects as the loop left them,
which the manager no longer refers to. -/
def Manager.stopAll (m : Manager) (c : Client) : Result ((Manager × Client) × GoMap Pinger) :=
  match stopPingers (m.pingers.getD []) with
  | .panic msg => .panic msg
  | .err e => .err e
  | .ok stopped =>
    .ok (({ m with pingers := none }, if m.client then { c with closed := true } else c),
      stopped)

/-- Method `Stop`, as seen from the manager and the client handle. -/
def Manager.Stop (m : Manager) (c : Client) : Result (Manager × Client) :=
  match m.stopAll c with
  | .panic msg => .panic msg
  | .err e => .err e
  | .ok (mc, _) => .ok mc

/-- The objects outside the manager that a call of `NewManager` works on, in
the state in which the call leaves them: the client handle it was given, and
the pinger objects it created and started. -/
structure Outside where
  client : Option Client
  pingers : GoMap Pinger
  deriving DecidableEq

/-- The error branch that follows each `addPinger` call in `NewManager`:
`m.Stop()`, then the wrapped error.  The manager is dropped; what stays are the
client and the pingers as `Stop` left them. -/
def stopAndFail (m : Manager) (c : Client) (e : GoError) : Outside × Result Manager :=
  match m.stopAll c with
  | .ok ((_, c'), stopped) =>
    ({ client := some c', pingers := stopped },
      .err (.Wrapf e "failed to add pinger for %q" m.Spec.Name))
  | .err e' => ({ client := some c, pingers := m.pingers.getD [] }, .err e')
  | .panic msg => ({ client := some c, pingers := m.pingers.getD [] }, .panic msg)

/-- Function `NewManager`.  The result comes with the state in which the call
leaves the client handle and the pingers it created.  On success the poller
goroutine is started on the returned manager. -/
def NewManager (resolve : String → Except GoError String) (c : Option Client)
    (spec : Option Spec) : Outside × Result Manager :=
  match spec with
  | none => ({ client := c, pingers := [] }, .err (.New "spec is required"))
  | some spec =>
    match c with
    | none => ({ client := none, pingers := [] }, .err (.New "talos client is required"))
    | some cl =>
      let m0 : Manager :=
        { Spec := spec, Status := Status.new, client := true,
          pingers := some [], pingTimestamps := some [] }
      match m0.addPinger resolve "ipmi" spec.IPMIAddr.String with
      | .panic msg => ({ client := some cl, pingers := m0.pingers.getD [] }, .panic msg)
      | .err e => stopAndFail m0 cl e
      | .ok m1 =>
        match m1.addPinger resolve "ipv4" spec.IPv4Addr.String with
        | .panic msg => ({ client := some cl, pingers := m1.pingers.getD [] }, .panic msg)
        | .err e => stopAndFail m1 cl e
        | .ok m2 =>
          match m2.addPinger resolve "ipv6" spec.IPv6Addr.String with
          | .panic msg => ({ client := some cl, pingers := m2.pingers.getD [] }, .panic msg)
          | .err e => stopAndFail m2 cl e
          | .ok m3 => ({ client := some cl, pingers := m3.pingers.getD [] }, .ok m3)

/-- The manager that `NewManager` builds for `spec` when the texts of its three
addresses resolve to `ip1`, `ip2` and `ip3`: an empty status, three running
pingers, no timestamp. -/
def freshManager (spec : Spec) (ip1 ip2 ip3 : String) : Manager :=
  { Spec := spec, Status := Status.new, client := true,
    pingers := some [("ipmi", { addr := spec.IPMIAddr.String, ipaddr := ip1, done := false }),
                     ("ipv4", { addr := spec.IPv4Addr.String, ipaddr := ip2, done := false }),
                     ("ipv6", { addr := spec.IPv6Addr.String, ipaddr := ip3, done := false })],
    pingTimestamps := some [] }

/-! ## One manager and its goroutines -/

/-- Where the `watchServices` goroutine of a manager stands: `off` when there
is none (not started, or returned), `waiting` in its `select`,
`updatingServices` once the timer case has been chosen and
`updateServiceStatus` is next, `updatingVersion` when `updateVersion` is next. -/
inductive Poller where
  | off
  | waiting
  | updatingServices
  | updatingVersion
  deriving DecidableEq

/-- A manager together with what runs around it: the shared client handle, the
context handed to `NewManager`, and its poller goroutine. -/
structure System where
  m : Manager
  c : Client
  ctxDone : Bool
  poller : Poller
  deriving DecidableEq

/-- What can happen to a manager. -/
inductive Event where
  | reply (kind : String) (now : Int)
  | cancel
  | stop
  | selectDone
  | selectTick
  | serviceList (resp : ServiceListResp)
  | version (resp : VersionResp)

/-- One atomic step; each of them runs under the one lock it takes.

* `reply kind now`: the library runs the `OnRecv` callback installed for
  `kind`, under `m.mu`.  The callback does not look at `m.pingers`, and `Stop`
  holds `m.mu` while it stops the pingers, so a callback may run after `Stop`
  returned: the step is possible in every state.  When the library delivers is
  not decided here.
* `cancel`: the context is cancelled.
* `stop`: a call of `Manager.Stop`, under `m.mu`.
* `selectDone`: the `select` of `watchServices` takes the `ctx.Done()` case and
  the loop returns; possible only when the context is done.
* `selectTick`: the `select` takes the timer case.  The context is looked at
  nowhere else, so once this case is taken the tick runs to its end, and with
  both cases ready the `select` may take this one even if the context is done.
* `serviceList resp`: `updateServiceStatus` runs, under `Status.mu`, and gets
  the answer `resp`.
* `version resp`: `updateVersion` runs, under `Status.mu`, and gets `resp`;
  the loop goes back to its `select`.

A step that is not possible in the state leaves it as it is. -/
def step (s : System) : Event → Result System
  | .reply kind now =>
    match s.m.OnRecv kind now with
    | .ok m' => .ok { s with m := m' }
    | .err e => .err e
    | .panic msg => .panic msg
  | .cancel => .ok { s with ctxDone := true }
  | .stop =>
    match s.m.Stop s.c with
    | .ok (m', c') => .ok { s with m := m', c := c' }
    | .err e => .err e
    | .panic msg => .panic msg
  | .selectDone =>
    if s.poller = .waiting ∧ s.ctxDone = true then .ok { s with poller := .off } else .ok s
  | .selectTick =>
    if s.poller = .waiting then .ok { s with poller := .updatingServices } else .ok s
  | .serviceList resp =>
    if s.poller = .updatingServices then
      .ok { s with m := s.m.updateServiceStatus resp, poller := .updatingVersion }
    else .ok s
  | .version resp =>
    if s.poller = .updatingVersion then
      .ok { s with m := s.m.updateVersion resp, poller := .waiting }
    else .ok s

/-- A sequence of steps; a panic ends the run. -/
def run : System → List Event → Result System
  | s, [] => .ok s
  | s, ev :: rest =>
    match step s ev with
    | .ok s' => run s' rest
    | .err e => .err e
    | .panic msg => .panic msg

/-- The system right after `NewManager` returned the manager `m`: the poller
goroutine has been started and sits in its `select`. -/
def System.launch (m : Manager) (c : Client) (ctxDone : Bool) : System :=
  { m := m, c := c, ctxDone := ctxDone, poller := .waiting }

/-- The events of one full poll tick with the given RPC answers. -/
def tickEvents (svc : ServiceListResp) (ver : VersionResp) : List Event :=
  [.selectTick, .serviceList svc, .version ver]

/-- Table `shortcuts`. -/
def shortcuts : List Char :=
  ['a', 'b', 'c', 'd', 'e', 'f', 'g', 'h', 'i', 'j', 'k', 'l', 'm',
   'n', 'o', 'p', 'q', 'r', 's', 't', 'u', 'v', 'w', 'x', 'y', 'z']

/-- An entry given to `list.AddItem`: main text, secondary text, shortcut, and
the index that the selection closure captures. -/
structure ListItem where
  mainText : String
  secondaryText : String
  shortcut : Char
  index : Nat
  deriving DecidableEq

/-- Type `machineGrid` without its widget and lock. -/
structure machineGrid where
  machines : List Manager
  selectedMachine : Manager
  deriving DecidableEq

/-- What `machineStatusGrid` hands back on success: the grid object that the
closures hold and the entries of the machine list widget. -/
structure GridView where
  g : machineGrid
  list : List ListItem
  deriving DecidableEq

/-- What exists in the process when `machineStatusGrid` is left, whatever it
returns: the shared client handle, and the managers that `NewManager` returned
so far, whose pinger and poller goroutines are running. -/
structure Process where
  client : Option Client
  managers : List Manager
  deriving DecidableEq

/-- The first loop of `machineStatusGrid`: one `NewManager` per spec, in order,
appending to `machines`.  On an error the function returns at once with the
wrapped error; evaluating `spec.Name` for the wrapping dereferences the spec,
which panics if the failing spec is the nil pointer. -/
def buildMachines (resolve : String → Except GoError String) :
    Option Client → List Manager → List (Option Spec) → Process × Result Unit
  | c, machines, [] => ({ client := c, managers := machines }, .ok ())
  | c, machines, spec :: rest =>
    match NewManager resolve c spec with
    | (out, .ok m) => buildMachines resolve out.client (machines ++ [m]) rest
    | (out, .panic msg) => ({ client := out.client, managers := machines }, .panic msg)
    | (out, .err e) =>
      match spec with
      | none =>
        ({ client := out.client, managers := machines },
          .panic "invalid memory address or nil pointer dereference")
      | some sp =>
        ({ client := out.client, managers := machines },
          .err (.Wrapf e "failed to create machine manager for %s" sp.Name))

/-- The last loop of `machineStatusGrid`: `list.AddItem` for the machine at
each index `i`, with `shortcuts[i]`, which panics when `i` is out of range. -/
def addItems : Nat → List Manager → List ListItem → Result (List ListItem)
  | _, [], items => .ok items
  | i, m :: rest, items =>
    match shortcuts.get? i with
    | none => .panic "index out of range"
    | some r =>
      addItems (i + 1) rest
        (items ++ [{ mainText := m.Spec.Name, secondaryText := m.Spec.FQDN,
                     shortcut := r, index := i }])

/-- Function `machineStatusGrid` without the widgets: build the managers, take
`machines[0]` as the selected machine (a panic on an empty slice), fill the
list. -/
def machineStatusGrid (resolve : String → Except GoError String) (c : Option Client)
    (machineSpecs : List (Option Spec)) : Process × Result GridView :=
  match buildMachines resolve c [] machineSpecs with
  | (w, .err e) => (w, .err e)
  | (w, .panic msg) => (w, .panic msg)
  | (w, .ok ()) =>
    match w.managers with
    | [] => (w, .panic "index out of range [0] with length 0")
    | m0 :: _ =>
      match addItems 0 w.managers [] with
      | .err e => (w, .err e)
      | .panic msg => (w, .panic msg)
      | .ok items =>
        (w, .ok { g := { machines := w.managers, selectedMachine := m0 }, list := items })

/-- The list entries by position, as property C10 words them: the
machine at position `i` gets its name, its FQDN and the `i`-th letter counted
from `a` (code point 97). -/
def expectedItems : Nat → List Spec → List ListItem
  | _, [] => []
  | i, sp :: rest =>
    { mainText := sp.Name, secondaryText := sp.FQDN,
      shortcut := Char.ofNat (97 + i), index := i } :: expectedItems (i + 1) rest

/-! ## Concrete inputs used by the examples below -/

/-- A resolver that accepts every address text except the text of a nil
address. -/
def resolveLiteral (addr : String) : Except GoError String :=
  if addr = "<nil>" then .error (.External "lookup <nil>: no such host") else .ok addr

/-- A resolver that accepts every text. -/
def resolveAny (addr : String) : Except GoError String :=
  .ok addr

/-- A machine with all three addresses. -/
def node1 : Spec :=
  { Name := "node1", FQDN := "node1.example.net",
    IPMIAddr := some "10.0.1.1", IPv4Addr := some "10.0.0.1", IPv6Addr := some "fd00::1" }

/-- A second machine with all three addresses. -/
def node2 : Spec :=
  { Name := "node2", FQDN := "node2.example.net",
    IPMIAddr := some "10.0.1.2", IPv4Addr := some "10.0.0.2", IPv6Addr := some "fd00::2" }

/-- A machine whose IPv6 address is absent. -/
def nodeNoV6 : Spec :=
  { Name := "node3", FQDN := "node3.example.net",
    IPMIAddr := some "10.0.1.3", IPv4Addr := some "10.0.0.3", IPv6Addr := none }

/-- A machine whose IPv4 address is absent. -/
def nodeNoV4 : Spec :=
  { Name := "node4", FQDN := "node4.example.net",
    IPMIAddr := some "10.0.1.4", IPv4Addr := none, IPv6Addr := some "fd00::4" }

/-- The manager that `NewManager` returns for `node1`. -/
def manager1 : Manager :=
  { Spec := node1, Status := Status.new, client := true,
    pingers := some [("ipmi", { addr := "10.0.1.1", ipaddr := "10.0.1.1", done := false }),
                     ("ipv4", { addr := "10.0.0.1", ipaddr := "10.0.0.1", done := false }),
                     ("ipv6", { addr := "fd00::1", ipaddr := "fd00::1", done := false })],
    pingTimestamps := some [] }

/-- The `ServiceList` answer of scenario S1. -/
def servicesS1 : ServiceListResp :=
  .ok [{ Services := [{ Id := "kubelet", State := "running" },
                      { Id := "bootkube", State := "finished" }] }]

/-- The `Version` answer of scenario S1. -/
def versionS1 : VersionResp :=
  .ok [{ Version := some { Tag := "v1.2.3" } }]

/-- An RPC failure. -/
def rpcDown : GoError := .External "rpc error: code = Unavailable"

/-- The manager of `node1` in steady state: one reply on IPv4 and one
successful poll tick, context live, poller in its `select`. -/
def steady : System :=
  { m := { manager1 with
             Status := { Status.new with
                           TalosVersion := "v1.2.3",
                           Services := [{ Id := "kubelet", State := "running" },
                                        { Id := "bootkube", State := "finished" }] },
             pingTimestamps := some [("ipv4", 300000000)] },
    c := { closed := false },
    ctxDone := false,
    poller := .waiting }

/-! ## Staleness rule -/

theorem subMono_lt_threshold (now ts : Int) (hnow : isInt64 now) (hts : isInt64 ts) :
    subMono now ts < pingThreshold ↔ now - ts < 2000000000 := by
  unfold isInt64 minInt64 maxInt64 at hnow hts
  unfold subMono wrapInt64 pingThreshold Second maxInt64 minInt64
  simp only []
  split_ifs <;> omega

/-- C1. `PingUp(kind)` at the instant `now` is true exactly when a timestamp
is recorded for `kind` and `now - ts` is strictly below two seconds (in
nanoseconds); it is false when no timestamp is recorded, and false when exactly
two seconds have elapsed.  The instants are `int64` readings. -/
theorem PingUp_iff_fresh (m : Manager) (now : Int) (kind : String)
    (hnow : isInt64 now)
    (hts : ∀ ts, m.readTimestamp kind = some ts → isInt64 ts) :
    (m.PingUp now kind = true ↔
        ∃ ts, m.readTimestamp kind = some ts ∧ now - ts < 2000000000) ∧
    (m.readTimestamp kind = none → m.PingUp now kind = false) ∧
    (∀ ts, m.readTimestamp kind = some ts → now - ts = 2000000000 →
        m.PingUp now kind = false) := by
  unfold Manager.PingUp Since
  cases h : m.readTimestamp kind with
  | none => simp
  | some ts =>
    have hiff := subMono_lt_threshold now ts hnow (hts ts h)
    refine ⟨?_, ?_, ?_⟩
    · simp [hiff]
    · simp
    · intro ts' hts' hd
      have : ts' = ts := by simpa using hts'.symm
      subst this
      simp [hiff]
      omega

/-- Instance of C1 on the steady manager of `node1`, read at 0.5 s. -/
theorem PingUp_iff_fresh_witness :
    (steady.m.PingUp 500000000 "ipv4" = true ↔
        ∃ ts, steady.m.readTimestamp "ipv4" = some ts ∧ 500000000 - ts < 2000000000) ∧
    (steady.m.readTimestamp "ipv4" = none → steady.m.PingUp 500000000 "ipv4" = false) ∧
    (∀ ts, steady.m.readTimestamp "ipv4" = some ts → 500000000 - ts = 2000000000 →
        steady.m.PingUp 500000000 "ipv4" = false) :=
  PingUp_iff_fresh steady.m 500000000 "ipv4" (by decide)
    (by
      intro ts h
      have : ts = 300000000 := by
        have h' : steady.m.readTimestamp "ipv4" = some 300000000 := by decide
        rw [h'] at h
        exact (Option.some.inj h).symm
      subst this
      decide)

/-! ## Poll tick -/

theorem foldl_services_version (messages : List ServiceList) (st : Status) :
    (messages.foldl (fun st msg => { st with Services := msg.Services }) st).TalosVersion
      = st.TalosVersion := by
  induction messages generalizing st with
  | nil => rfl
  | cons msg rest ih => simp [List.foldl_cons, ih]

theorem foldl_services_snoc (init : List ServiceList) (last : ServiceList) (st : Status) :
    (List.foldl (fun st msg => { st with Services := msg.Services }) st
      (init ++ [last])).Services = last.Services := by
  simp [List.foldl_append]

theorem foldl_version_services (messages : List VersionMsg) (st : Status) :
    (messages.foldl (fun st msg => { st with TalosVersion := msg.GetTag }) st).Services
      = st.Services := by
  induction messages generalizing st with
  | nil => rfl
  | cons msg rest ih => simp [List.foldl_cons, ih]

theorem foldl_version_snoc (init : List VersionMsg) (last : VersionMsg) (st : Status) :
    (List.foldl (fun st msg => { st with TalosVersion := msg.GetTag }) st
      (init ++ [last])).TalosVersion = last.GetTag := by
  simp [List.foldl_append]

theorem updateVersion_services (m : Manager) (ver : VersionResp) :
    (m.updateVersion ver).Status.Services = m.Status.Services := by
  unfold Manager.updateVersion
  cases ver with
  | error e => rfl
  | ok messages => exact foldl_version_services messages m.Status

theorem updateServiceStatus_version (m : Manager) (svc : ServiceListResp) :
    (m.updateServiceStatus svc).Status.TalosVersion = m.Status.TalosVersion := by
  unfold Manager.updateServiceStatus
  cases svc with
  | error e => rfl
  | ok messages => simp [foldl_services_version]

theorem updateVersion_eq_versionAfter (m : Manager) (ver : VersionResp) :
    (m.updateVersion ver).Status.TalosVersion = versionAfter m.Status.TalosVersion ver := by
  unfold Manager.updateVersion versionAfter
  cases ver with
  | error e => rfl
  | ok messages =>
    rcases List.eq_nil_or_concat messages with h | ⟨init, last, h⟩
    · subst h; rfl
    · subst h
      simp [List.foldl_append]

theorem serviceStateLoop_resetStates (services : List ServiceInfo) (id : String) :
    serviceStateLoop (resetStates services) id = "unknown" := by
  induction services with
  | nil => rfl
  | cons s rest ih =>
    have ih' : serviceStateLoop (List.map (fun s => { s with State := StateUnknown }) rest) id
        = "unknown" := ih
    simp only [resetStates, List.map_cons, serviceStateLoop]
    split_ifs
    · rfl
    · exact ih'

theorem serviceStateLoop_eq_reportedState (services : List ServiceInfo) (id : String) :
    serviceStateLoop services id = reportedState services id := by
  induction services with
  | nil => rfl
  | cons s rest ih =>
    unfold reportedState at ih ⊢
    simp only [serviceStateLoop, List.find?_cons]
    by_cases h : s.Id = id
    · simp [h]
    · simp [h, ih]

theorem reportedState_of_not_mem (services : List ServiceInfo) (id : String)
    (h : id ∉ services.map (fun s => s.Id)) : reportedState services id = "unknown" := by
  unfold reportedState
  have : services.find? (fun s => decide (s.Id = id)) = none := by
    rw [List.find?_eq_none]
    intro s hs hid
    exact h (List.mem_map.mpr ⟨s, hs, by simpa using hid⟩)
  rw [this]

theorem reportedState_of_mem_nodup (services : List ServiceInfo)
    (hnd : (services.map (fun s => s.Id)).Nodup) (s : ServiceInfo) (hs : s ∈ services) :
    reportedState services s.Id = s.State := by
  induction services with
  | nil => cases hs
  | cons t rest ih =>
    rw [List.map_cons, List.nodup_cons] at hnd
    unfold reportedState at ih ⊢
    rw [List.find?_cons]
    rcases List.mem_cons.mp hs with h | h
    · subst h; simp
    · have hne : t.Id ≠ s.Id := by
        intro heq
        exact hnd.1 (List.mem_map.mpr ⟨s, h, heq.symm⟩)
      simp [hne, ih hnd.2 h]

/-- C2. A poll tick whose `ServiceList` RPC fails leaves the table with the
same service ids in the same order and with every state `unknown`, so that
`ServiceState(id)` returns `unknown` for every id afterwards, whatever it
returned before and whatever the `Version` RPC of the tick did. -/
theorem failed_ServiceList_degrades (m : Manager) (e : GoError) (ver : VersionResp) :
    (m.pollTick (.error e) ver).Status.Services.map (fun s => s.Id)
        = m.Status.Services.map (fun s => s.Id) ∧
    (∀ s ∈ (m.pollTick (.error e) ver).Status.Services, s.State = "unknown") ∧
    (∀ id, (m.pollTick (.error e) ver).ServiceState id = "unknown") := by
  have hs : (m.pollTick (.error e) ver).Status.Services = resetStates m.Status.Services := by
    unfold Manager.pollTick
    rw [updateVersion_services]
    rfl
  refine ⟨?_, ?_, ?_⟩
  · rw [hs]; simp [resetStates, Function.comp_def]
  · rw [hs]
    intro s hmem
    simp only [resetStates, List.mem_map] at hmem
    obtain ⟨t, _, rfl⟩ := hmem
    rfl
  · intro id
    unfold Manager.ServiceState
    rw [hs]
    exact serviceStateLoop_resetStates _ id

/-- C3. A poll tick whose `ServiceList` RPC succeeds replaces the table with
the reported list, the service list of the (last) message of the answer: every
id then reads the state that this list gives for it (the state of its entry,
when the ids of the list are pairwise distinct), and every id that is not in
the list reads `unknown`, also an id that was in the table before.  An answer
that carries no message at all reports nothing and every id reads `unknown`. -/
theorem successful_ServiceList_replaces (m : Manager) (init : List ServiceList)
    (last : ServiceList) (ver : VersionResp) :
    (m.pollTick (.ok (init ++ [last])) ver).Status.Services = last.Services ∧
    (∀ id, (m.pollTick (.ok (init ++ [last])) ver).ServiceState id
        = reportedState last.Services id) ∧
    ((last.Services.map (fun s => s.Id)).Nodup →
        ∀ s ∈ last.Services, (m.pollTick (.ok (init ++ [last])) ver).ServiceState s.Id
          = s.State) ∧
    (∀ id, id ∉ last.Services.map (fun s => s.Id) →
        (m.pollTick (.ok (init ++ [last])) ver).ServiceState id = "unknown") ∧
    (∀ id, (m.pollTick (.ok []) ver).ServiceState id = "unknown") := by
  have hs : (m.pollTick (.ok (init ++ [last])) ver).Status.Services = last.Services := by
    unfold Manager.pollTick
    rw [updateVersion_services]
    unfold Manager.updateServiceStatus
    exact foldl_services_snoc init last _
  have hread : ∀ id, (m.pollTick (.ok (init ++ [last])) ver).ServiceState id
      = reportedState last.Services id := by
    intro id
    unfold Manager.ServiceState
    rw [hs]
    exact serviceStateLoop_eq_reportedState _ id
  refine ⟨hs, hread, ?_, ?_, ?_⟩
  · intro hnd s hmem
    rw [hread]
    exact reportedState_of_mem_nodup _ hnd s hmem
  · intro id hid
    rw [hread]
    exact reportedState_of_not_mem _ id hid
  · intro id
    have h0 : (m.pollTick (.ok []) ver).Status.Services = resetStates m.Status.Services := by
      unfold Manager.pollTick
      rw [updateVersion_services]
      rfl
    unfold Manager.ServiceState
    rw [h0]
    exact serviceStateLoop_resetStates _ id

theorem pollTick_version (m : Manager) (svc : ServiceListResp) (ver : VersionResp) :
    (m.pollTick svc ver).Version = versionAfter m.Version ver := by
  unfold Manager.pollTick Manager.Version
  rw [updateVersion_eq_versionAfter, updateServiceStatus_version]

theorem watchServices_version_of_failed (sel : List Select) (m : Manager)
    (h : ∀ x ∈ sel, x.versionFailed) : (m.watchServices sel).Version = m.Version := by
  induction sel generalizing m with
  | nil => rfl
  | cons x rest ih =>
    cases x with
    | done => rfl
    | tick svc ver =>
      cases ver with
      | ok messages => exact absurd (h _ (List.mem_cons_self _ _)) (by simp [Select.versionFailed])
      | error e =>
        unfold Manager.watchServices
        rw [ih _ (fun x hx => h x (List.mem_cons_of_mem _ hx)), pollTick_version]
        rfl

/-- C4. The version after a poll tick is a function of the prior version and
of the outcome of the `Version` RPC alone, `versionAfter`: the prior version
when that RPC fails, the reported tag (of the last message) when it succeeds,
in both cases whatever the `ServiceList` RPC of the same tick did; updating
the service table alone never changes the version; and as long as every
`Version` RPC fails, the version stays what it was (the empty string for a
manager that starts with an empty status). -/
theorem version_after_tick (m : Manager) (svc : ServiceListResp) (ver : VersionResp) :
    (m.pollTick svc ver).Version = versionAfter m.Version ver ∧
    (∀ e, (m.pollTick svc (.error e)).Version = m.Version) ∧
    (∀ init last, (m.pollTick svc (.ok (init ++ [last]))).Version = last.GetTag) ∧
    (∀ (m' : Manager) (svc' : ServiceListResp), m'.Version = m.Version →
        (m'.pollTick svc' ver).Version = (m.pollTick svc ver).Version) ∧
    (m.updateServiceStatus svc).Version = m.Version ∧
    (∀ sel : List Select, (∀ x ∈ sel, x.versionFailed) →
        (m.watchServices sel).Version = m.Version) ∧
    (m.Status = Status.new → ∀ sel : List Select, (∀ x ∈ sel, x.versionFailed) →
        (m.watchServices sel).Version = "") := by
  refine ⟨pollTick_version m svc ver, ?_, ?_, ?_, ?_, ?_, ?_⟩
  · intro e
    rw [pollTick_version]; rfl
  · intro init last
    rw [pollTick_version]
    simp [versionAfter]
  · intro m' svc' h
    rw [pollTick_version, pollTick_version, h]
  · exact updateServiceStatus_version m svc
  · intro sel h
    exact watchServices_version_of_failed sel m h
  · intro hnew sel h
    rw [watchServices_version_of_failed sel m h]
    unfold Manager.Version
    rw [hnew]; rfl

/-! ## Stop -/

theorem Stop_eq_ok (m : Manager) (c : Client) (m1 : Manager) (c1 : Client)
    (h : m.Stop c = .ok (m1, c1)) :
    m1 = { m with pingers := none } ∧
    c1 = (if m.client then { c with closed := true } else c) := by
  unfold Manager.Stop Manager.stopAll at h
  cases hs : stopPingers (m.pingers.getD []) with
  | panic msg => rw [hs] at h; cases h
  | err e => rw [hs] at h; cases h
  | ok stopped =>
    rw [hs] at h
    simp only [Result.ok.injEq, Prod.mk.injEq] at h
    exact ⟨h.1.symm, h.2.symm⟩

theorem Stop_of_no_pingers (m : Manager) (c : Client) (hp : m.pingers = none) :
    m.Stop c = .ok (m, if m.client then { c with closed := true } else c) := by
  unfold Manager.Stop Manager.stopAll
  rw [hp]
  simp only [Option.getD_none, stopPingers]
  have hm : ({ m with pingers := none } : Manager) = m := by
    cases m; simp_all
  rw [hm]

theorem Stop_of_stopped (m : Manager) (c : Client) (hp : m.pingers = none)
    (hc : m.client = true → c.closed = true) : m.Stop c = .ok (m, c) := by
  rw [Stop_of_no_pingers m c hp]
  have hcl : (if m.client then ({ c with closed := true } : Client) else c) = c := by
    split_ifs with hcl
    · cases c; simp_all
    · rfl
  rw [hcl]

theorem stopPingers_of_running (ps : GoMap Pinger) (h : ∀ p ∈ ps, p.2.done = false) :
    stopPingers ps = .ok (ps.map fun p => (p.1, { p.2 with done := true })) := by
  induction ps with
  | nil => rfl
  | cons p rest ih =>
    obtain ⟨k, v⟩ := p
    have hv : v.done = false := h (k, v) (List.mem_cons_self _ _)
    simp only [stopPingers, hv, List.map_cons]
    rw [ih (fun q hq => h q (List.mem_cons_of_mem _ hq))]
    simp

/-- `Stop` returns on every manager whose registered pingers are all running,
in particular on every manager that `NewManager` returns. -/
theorem Stop_returns_of_running (m : Manager) (c : Client)
    (h : ∀ p ∈ m.pingers.getD [], p.2.done = false) :
    ∃ m1 c1, m.Stop c = .ok (m1, c1) := by
  unfold Manager.Stop Manager.stopAll
  rw [stopPingers_of_running _ h]
  exact ⟨_, _, rfl⟩

/-- C6. `Stop` is idempotent: whenever a call of `Stop` returns, a second call
right after it returns as well (it does not panic) and leaves the manager and
the client handle exactly as the first call left them: no registered pinger,
the same reply timestamps, the same service table and version. -/
theorem Stop_idempotent (m : Manager) (c : Client) (m1 : Manager) (c1 : Client)
    (h : m.Stop c = .ok (m1, c1)) :
    m1.Stop c1 = .ok (m1, c1) ∧ m1.pingers = none ∧
    m1.pingTimestamps = m.pingTimestamps ∧ m1.Status = m.Status := by
  obtain ⟨hm, hc⟩ := Stop_eq_ok m c m1 c1 h
  subst hm
  refine ⟨?_, rfl, rfl, rfl⟩
  apply Stop_of_stopped
  · rfl
  · intro hcl
    subst hc
    have : m.client = true := hcl
    simp [this]

/-- Instance of C6 on the manager that `NewManager` returns for `node1`. -/
theorem Stop_idempotent_witness :
    manager1.Stop { closed := false }
        = .ok ({ manager1 with pingers := none }, { closed := true }) ∧
    ({ manager1 with pingers := none } : Manager).Stop { closed := true }
        = .ok ({ manager1 with pingers := none }, { closed := true }) :=
  ⟨by decide,
   (Stop_idempotent manager1 { closed := false } { manager1 with pingers := none }
      { closed := true } (by decide)).1⟩

/-! ## Steps around a manager -/

theorem pollTick_frame (m : Manager) (svc : ServiceListResp) (ver : VersionResp) :
    (m.pollTick svc ver).pingers = m.pingers ∧
    (m.pollTick svc ver).pingTimestamps = m.pingTimestamps ∧
    (m.pollTick svc ver).client = m.client ∧
    (m.pollTick svc ver).Spec = m.Spec := by
  unfold Manager.pollTick Manager.updateVersion Manager.updateServiceStatus
  cases svc <;> cases ver <;> exact ⟨rfl, rfl, rfl, rfl⟩

theorem updateServiceStatus_frame (m : Manager) (svc : ServiceListResp) :
    (m.updateServiceStatus svc).pingers = m.pingers ∧
    (m.updateServiceStatus svc).pingTimestamps = m.pingTimestamps := by
  unfold Manager.updateServiceStatus
  cases svc <;> exact ⟨rfl, rfl⟩

theorem updateVersion_frame (m : Manager) (ver : VersionResp) :
    (m.updateVersion ver).pingers = m.pingers ∧
    (m.updateVersion ver).pingTimestamps = m.pingTimestamps := by
  unfold Manager.updateVersion
  cases ver <;> exact ⟨rfl, rfl⟩

theorem lookup_set {α : Type} (l : GoMap α) (k k' : String) (v : α) :
    (GoMap.set l k v).lookup k' = if k' = k then some v else l.lookup k' := by
  induction l with
  | nil =>
    simp only [GoMap.set, List.lookup]
    by_cases h : k' = k
    · have hb : (k' == k) = true := by simpa using h
      simp [hb, h]
    · have hb : (k' == k) = false := by simpa using h
      simp [hb, h]
  | cons p rest ih =>
    obtain ⟨k₀, v₀⟩ := p
    simp only [GoMap.set]
    by_cases h0 : k₀ = k
    · subst h0
      simp only [if_true, List.lookup]
      by_cases h : k' = k₀
      · have hb : (k' == k₀) = true := by simpa using h
        simp [hb, h]
      · have hb : (k' == k₀) = false := by simpa using h
        simp [hb, h]
    · simp only [h0, if_false, List.lookup]
      by_cases h1 : k' = k₀
      · have hb : (k' == k₀) = true := by simpa using h1
        have hne : ¬ k' = k := fun e => h0 (h1.symm.trans e)
        simp [hb, hne]
      · have hb : (k' == k₀) = false := by simpa using h1
        simp [hb, ih]

theorem OnRecv_eq_ok (m m' : Manager) (kind : String) (now : Int)
    (h : m.OnRecv kind now = .ok m') :
    m'.Status = m.Status ∧ m'.pingers = m.pingers ∧ m'.pingTimestamps ≠ none ∧
    m'.readTimestamp kind = some now ∧
    ∀ k, k ≠ kind → m'.readTimestamp k = m.readTimestamp k := by
  unfold Manager.OnRecv at h
  cases hs : m.pingTimestamps with
  | none => rw [hs] at h; cases h
  | some stamps =>
    rw [hs] at h
    simp only [Result.ok.injEq] at h
    subst h
    refine ⟨rfl, rfl, by simp, ?_, ?_⟩
    · simp [Manager.readTimestamp, lookup_set]
    · intro k hk
      simp [Manager.readTimestamp, lookup_set, hk, hs]

/-- The callback and `addPinger` write different fields, so a reply that
arrives while `NewManager` is still adding pingers leads to the same state as
the same reply right after. -/
theorem addPinger_OnRecv_comm (resolve : String → Except GoError String) (m m1 m2 : Manager)
    (kind addr k : String) (now : Int)
    (h1 : m.addPinger resolve kind addr = .ok m1) (h2 : m.OnRecv k now = .ok m2) :
    ∃ m3, m1.OnRecv k now = .ok m3 ∧ m2.addPinger resolve kind addr = .ok m3 := by
  unfold Manager.addPinger at h1 ⊢
  unfold Manager.OnRecv at h2 ⊢
  cases hp : NewPinger resolve addr with
  | error e => rw [hp] at h1; cases h1
  | ok p =>
    rw [hp] at h1
    simp only [] at h1 ⊢
    cases hps : m.pingers with
    | none => rw [hps] at h1; cases h1
    | some ps =>
      cases hs : m.pingTimestamps with
      | none => rw [hs] at h2; cases h2
      | some stamps =>
        rw [hps] at h1
        rw [hs] at h2
        simp only [Result.ok.injEq] at h1 h2
        subst h1
        subst h2
        simp [hps, hs]

theorem step_stop_eq (s s1 : System) (h : step s .stop = .ok s1) :
    s1.m = { s.m with pingers := none } ∧ s1.poller = s.poller ∧ s1.ctxDone = s.ctxDone := by
  simp only [step] at h
  split at h
  · rename_i m' c' hst
    obtain ⟨hm, _⟩ := Stop_eq_ok _ _ _ _ hst
    simp only [Result.ok.injEq] at h
    subst h
    exact ⟨hm, rfl, rfl⟩
  · cases h
  · cases h

/-- A reply of another kind, a poller step, a cancellation or a `Stop` leaves
the timestamp of `kind` as it is. -/
theorem step_readTimestamp (s s' : System) (kind : String) (ev : Event)
    (hev : ∀ now, ev ≠ .reply kind now) (h : step s ev = .ok s') :
    s'.m.readTimestamp kind = s.m.readTimestamp kind := by
  cases ev with
  | reply k now =>
    have hk : kind ≠ k := by
      intro e
      subst e
      exact hev now rfl
    simp only [step] at h
    split at h
    · rename_i m' hm
      simp only [Result.ok.injEq] at h
      subst h
      exact (OnRecv_eq_ok s.m m' k now hm).2.2.2.2 kind hk
    · cases h
    · cases h
  | cancel =>
    simp only [step, Result.ok.injEq] at h
    subst h
    rfl
  | stop =>
    obtain ⟨hm, _, _⟩ := step_stop_eq s s' h
    rw [hm]
    rfl
  | selectDone =>
    simp only [step] at h
    split_ifs at h <;> (simp only [Result.ok.injEq] at h; subst h; rfl)
  | selectTick =>
    simp only [step] at h
    split_ifs at h <;> (simp only [Result.ok.injEq] at h; subst h; rfl)
  | serviceList resp =>
    simp only [step] at h
    split_ifs at h
    · simp only [Result.ok.injEq] at h
      subst h
      simp only [Manager.readTimestamp, (updateServiceStatus_frame s.m resp).2]
    · simp only [Result.ok.injEq] at h
      subst h
      rfl
  | version resp =>
    simp only [step] at h
    split_ifs at h
    · simp only [Result.ok.injEq] at h
      subst h
      simp only [Manager.readTimestamp, (updateVersion_frame s.m resp).2]
    · simp only [Result.ok.injEq] at h
      subst h
      rfl

theorem run_readTimestamp (evs : List Event) (s s' : System) (kind : String)
    (hev : ∀ now, Event.reply kind now ∉ evs) (h : run s evs = .ok s') :
    s'.m.readTimestamp kind = s.m.readTimestamp kind := by
  induction evs generalizing s with
  | nil =>
    simp only [run, Result.ok.injEq] at h
    subst h
    rfl
  | cons ev rest ih =>
    unfold run at h
    split at h
    · rename_i s1 h1
      have hhead : ∀ now, ev ≠ .reply kind now := by
        intro now e
        exact hev now (e ▸ List.mem_cons_self _ _)
      rw [ih s1 (fun now hmem => hev now (List.mem_cons_of_mem _ hmem)) h,
        step_readTimestamp s s1 kind ev hhead h1]
    · cases h
    · cases h

/-- The three steps of a tick, taken from the `select`, amount to `pollTick`
and lead back to the `select`. -/
theorem run_tickEvents (s : System) (svc : ServiceListResp) (ver : VersionResp)
    (h : s.poller = .waiting) :
    run s (tickEvents svc ver) = .ok { s with m := s.m.pollTick svc ver } := by
  obtain ⟨m, c, ctxDone, poller⟩ := s
  simp only at h
  subst h
  simp [run, step, tickEvents, Manager.pollTick]

theorem NewManager_ok (resolve : String → Except GoError String) (cl : Client) (spec : Spec)
    (ip1 ip2 ip3 : String)
    (h1 : resolve spec.IPMIAddr.String = .ok ip1)
    (h2 : resolve spec.IPv4Addr.String = .ok ip2)
    (h3 : resolve spec.IPv6Addr.String = .ok ip3) :
    NewManager resolve (some cl) (some spec)
      = ({ client := some cl,
           pingers := [("ipmi", { addr := spec.IPMIAddr.String, ipaddr := ip1, done := false }),
                       ("ipv4", { addr := spec.IPv4Addr.String, ipaddr := ip2, done := false }),
                       ("ipv6", { addr := spec.IPv6Addr.String, ipaddr := ip3, done := false })] },
         .ok (freshManager spec ip1 ip2 ip3)) := by
  simp [NewManager, Manager.addPinger, NewPinger, h1, h2, h3, GoMap.set, freshManager]

theorem NewManager_fails_ipmi (resolve : String → Except GoError String) (cl : Client)
    (spec : Spec) (e : GoError)
    (h1 : resolve spec.IPMIAddr.String = .error e) :
    NewManager resolve (some cl) (some spec)
      = ({ client := some { closed := true }, pingers := [] },
         .err (.Wrapf (.Wrapf e "failed to create %q pinger" "ipmi")
                 "failed to add pinger for %q" spec.Name)) := by
  simp [NewManager, Manager.addPinger, NewPinger, h1, stopAndFail, Manager.stopAll, stopPingers]

theorem NewManager_fails_ipv4 (resolve : String → Except GoError String) (cl : Client)
    (spec : Spec) (ip1 : String) (e : GoError)
    (h1 : resolve spec.IPMIAddr.String = .ok ip1)
    (h2 : resolve spec.IPv4Addr.String = .error e) :
    NewManager resolve (some cl) (some spec)
      = ({ client := some { closed := true },
           pingers := [("ipmi", { addr := spec.IPMIAddr.String, ipaddr := ip1, done := true })] },
         .err (.Wrapf (.Wrapf e "failed to create %q pinger" "ipv4")
                 "failed to add pinger for %q" spec.Name)) := by
  simp [NewManager, Manager.addPinger, NewPinger, h1, h2, stopAndFail, Manager.stopAll,
    stopPingers, GoMap.set]

theorem NewManager_fails_ipv6 (resolve : String → Except GoError String) (cl : Client)
    (spec : Spec) (ip1 ip2 : String) (e : GoError)
    (h1 : resolve spec.IPMIAddr.String = .ok ip1)
    (h2 : resolve spec.IPv4Addr.String = .ok ip2)
    (h3 : resolve spec.IPv6Addr.String = .error e) :
    NewManager resolve (some cl) (some spec)
      = ({ client := some { closed := true },
           pingers := [("ipmi", { addr := spec.IPMIAddr.String, ipaddr := ip1, done := true }),
                       ("ipv4", { addr := spec.IPv4Addr.String, ipaddr := ip2, done := true })] },
         .err (.Wrapf (.Wrapf e "failed to create %q pinger" "ipv6")
                 "failed to add pinger for %q" spec.Name)) := by
  simp [NewManager, Manager.addPinger, NewPinger, h1, h2, h3, stopAndFail, Manager.stopAll,
    stopPingers, GoMap.set]

theorem NewManager_cases (resolve : String → Except GoError String) (cl : Client) (spec : Spec) :
    (∃ ip1 ip2 ip3 out, out.client = some cl ∧
        NewManager resolve (some cl) (some spec) = (out, .ok (freshManager spec ip1 ip2 ip3))) ∨
    (∃ e out, out.client = some { closed := true } ∧
        NewManager resolve (some cl) (some spec) = (out, .err e)) := by
  cases h1 : resolve spec.IPMIAddr.String with
  | error e =>
    exact Or.inr ⟨_, _, rfl, NewManager_fails_ipmi resolve cl spec e h1⟩
  | ok ip1 =>
    cases h2 : resolve spec.IPv4Addr.String with
    | error e =>
      exact Or.inr ⟨_, _, rfl, NewManager_fails_ipv4 resolve cl spec ip1 e h1 h2⟩
    | ok ip2 =>
      cases h3 : resolve spec.IPv6Addr.String with
      | error e =>
        exact Or.inr ⟨_, _, rfl, NewManager_fails_ipv6 resolve cl spec ip1 ip2 e h1 h2 h3⟩
      | ok ip3 =>
        exact Or.inl ⟨ip1, ip2, ip3, _, rfl, NewManager_ok resolve cl spec ip1 ip2 ip3 h1 h2 h3⟩

theorem freshManager_readTimestamp (spec : Spec) (ip1 ip2 ip3 : String) (kind : String) :
    (freshManager spec ip1 ip2 ip3).readTimestamp kind = none := by
  simp [Manager.readTimestamp, freshManager]

theorem PingUp_of_no_timestamp (m : Manager) (now : Int) (kind : String)
    (h : m.readTimestamp kind = none) : m.PingUp now kind = false := by
  unfold Manager.PingUp
  rw [h]

/-- C7, as stated, fails on `nodeNoV6`, whose IPv6 address is absent.  With a
resolver that rejects the text of a nil address, `NewManager` tries the absent
kind and fails because of it (having stopped the two pingers it had started,
and closed the client); with a resolver that accepts every text it starts a
pinger for the absent kind, created for the address `<nil>`. -/
theorem absent_kind_is_probed :
    NewManager resolveLiteral (some { closed := false }) (some nodeNoV6)
      = ({ client := some { closed := true },
           pingers := [("ipmi", { addr := "10.0.1.3", ipaddr := "10.0.1.3", done := true }),
                       ("ipv4", { addr := "10.0.0.3", ipaddr := "10.0.0.3", done := true })] },
         .err (.Wrapf (.Wrapf (.External "lookup <nil>: no such host")
                 "failed to create %q pinger" "ipv6")
               "failed to add pinger for %q" "node3")) ∧
    NewManager resolveAny (some { closed := false }) (some nodeNoV6)
      = ({ client := some { closed := false },
           pingers := [("ipmi", { addr := "10.0.1.3", ipaddr := "10.0.1.3", done := false }),
                       ("ipv4", { addr := "10.0.0.3", ipaddr := "10.0.0.3", done := false }),
                       ("ipv6", { addr := "<nil>", ipaddr := "<nil>", done := false })] },
         .ok (freshManager nodeNoV6 "10.0.1.3" "10.0.0.3" "<nil>")) ∧
    (freshManager nodeNoV6 "10.0.1.3" "10.0.0.3" "<nil>").pingers.bind (fun ps => ps.lookup "ipv6")
      = some { addr := "<nil>", ipaddr := "<nil>", done := false } := by
  decide

/-- C7, amended.  For every machine spec, whether or not some of its address
kinds are absent, `NewManager` with a non-nil client creates and starts a
pinger for each of the three kinds, in the order ipmi, ipv4, ipv6, from the
text of the address (`<nil>` for an absent one), and stops at the first text
that does not resolve.  If all three resolve it returns a manager with the
three pingers registered and running and leaves the client open.  If one does
not resolve it returns the wrapped error, having stopped exactly the pingers
it had started before (none, ipmi, or ipmi and ipv4) and closed the client.  It
never panics.  `PingUp(kind)` of the manager it returned stays false until a
reply for `kind` is delivered: it is false after every sequence of steps that
contains no reply for `kind`.  (A reply delivered while `NewManager` is still
adding pingers counts among these steps, see `addPinger_OnRecv_comm`.) -/
theorem NewManager_probes_every_kind (resolve : String → Except GoError String)
    (cl : Client) (spec : Spec) :
    (∀ e, resolve spec.IPMIAddr.String = .error e →
        NewManager resolve (some cl) (some spec)
          = ({ client := some { closed := true }, pingers := [] },
             .err (.Wrapf (.Wrapf e "failed to create %q pinger" "ipmi")
                     "failed to add pinger for %q" spec.Name))) ∧
    (∀ ip1 e, resolve spec.IPMIAddr.String = .ok ip1 →
        resolve spec.IPv4Addr.String = .error e →
        NewManager resolve (some cl) (some spec)
          = ({ client := some { closed := true },
               pingers :=
                 [("ipmi", { addr := spec.IPMIAddr.String, ipaddr := ip1, done := true })] },
             .err (.Wrapf (.Wrapf e "failed to create %q pinger" "ipv4")
                     "failed to add pinger for %q" spec.Name))) ∧
    (∀ ip1 ip2 e, resolve spec.IPMIAddr.String = .ok ip1 →
        resolve spec.IPv4Addr.String = .ok ip2 →
        resolve spec.IPv6Addr.String = .error e →
        NewManager resolve (some cl) (some spec)
          = ({ client := some { closed := true },
               pingers :=
                 [("ipmi", { addr := spec.IPMIAddr.String, ipaddr := ip1, done := true }),
                  ("ipv4", { addr := spec.IPv4Addr.String, ipaddr := ip2, done := true })] },
             .err (.Wrapf (.Wrapf e "failed to create %q pinger" "ipv6")
                     "failed to add pinger for %q" spec.Name))) ∧
    (∀ ip1 ip2 ip3, resolve spec.IPMIAddr.String = .ok ip1 →
        resolve spec.IPv4Addr.String = .ok ip2 →
        resolve spec.IPv6Addr.String = .ok ip3 →
        NewManager resolve (some cl) (some spec)
          = ({ client := some cl,
               pingers :=
                 [("ipmi", { addr := spec.IPMIAddr.String, ipaddr := ip1, done := false }),
                  ("ipv4", { addr := spec.IPv4Addr.String, ipaddr := ip2, done := false }),
                  ("ipv6", { addr := spec.IPv6Addr.String, ipaddr := ip3, done := false })] },
             .ok (freshManager spec ip1 ip2 ip3))) ∧
    (∀ msg, (NewManager resolve (some cl) (some spec)).2 ≠ .panic msg) ∧
    (∀ m, (NewManager resolve (some cl) (some spec)).2 = .ok m →
        ∀ (kind : String) (c : Client) (ctxDone : Bool) (evs : List Event) (s2 : System),
          (∀ now, Event.reply kind now ∉ evs) →
          run (System.launch m c ctxDone) evs = .ok s2 →
          ∀ now, s2.m.PingUp now kind = false) := by
  refine ⟨?_, ?_, ?_, ?_, ?_, ?_⟩
  · intro e h1
    exact NewManager_fails_ipmi resolve cl spec e h1
  · intro ip1 e h1 h2
    exact NewManager_fails_ipv4 resolve cl spec ip1 e h1 h2
  · intro ip1 ip2 e h1 h2 h3
    exact NewManager_fails_ipv6 resolve cl spec ip1 ip2 e h1 h2 h3
  · intro ip1 ip2 ip3 h1 h2 h3
    exact NewManager_ok resolve cl spec ip1 ip2 ip3 h1 h2 h3
  · intro msg hmsg
    rcases NewManager_cases resolve cl spec with ⟨ip1, ip2, ip3, out, _, h⟩ | ⟨e', out, _, h⟩
    · rw [h] at hmsg
      cases hmsg
    · rw [h] at hmsg
      cases hmsg
  · intro m hm kind c ctxDone evs s2 hev hrun now
    rcases NewManager_cases resolve cl spec with ⟨ip1, ip2, ip3, out, _, h⟩ | ⟨e', out, _, h⟩
    · rw [h] at hm
      simp only [Result.ok.injEq] at hm
      subst hm
      apply PingUp_of_no_timestamp
      rw [run_readTimestamp evs _ s2 kind hev hrun]
      exact freshManager_readTimestamp spec ip1 ip2 ip3 kind
    · rw [h] at hm
      cases hm

/-! ## Grid build -/

theorem NewManager_snd_ok (resolve : String → Except GoError String) (cl : Client)
    (spec : Spec) (m : Manager)
    (h : (NewManager resolve (some cl) (some spec)).2 = .ok m) :
    (∃ out, out.client = some cl ∧ NewManager resolve (some cl) (some spec) = (out, .ok m)) ∧
    ∃ ip1 ip2 ip3, m = freshManager spec ip1 ip2 ip3 := by
  rcases NewManager_cases resolve cl spec with ⟨ip1, ip2, ip3, out, hc, h'⟩ | ⟨e, out, _, h'⟩
  · rw [h'] at h ⊢
    simp only [Result.ok.injEq] at h
    subst h
    exact ⟨⟨out, hc, rfl⟩, ip1, ip2, ip3, rfl⟩
  · rw [h'] at h
    cases h

theorem NewManager_snd_err (resolve : String → Except GoError String) (cl : Client)
    (spec : Spec) (e : GoError)
    (h : (NewManager resolve (some cl) (some spec)).2 = .err e) :
    ∃ out, out.client = some { closed := true } ∧
      NewManager resolve (some cl) (some spec) = (out, .err e) := by
  rcases NewManager_cases resolve cl spec with ⟨ip1, ip2, ip3, out, _, h'⟩ | ⟨e', out, hc, h'⟩
  · rw [h'] at h
    cases h
  · rw [h'] at h ⊢
    simp only [Result.err.injEq] at h
    subst h
    exact ⟨out, hc, rfl⟩

theorem buildMachines_built (resolve : String → Except GoError String) (cl : Client)
    (pre : List Spec) (managers : List Manager)
    (hpre : List.Forall₂
      (fun spec m => (NewManager resolve (some cl) (some spec)).2 = .ok m) pre managers)
    (acc : List Manager) (rest : List (Option Spec)) :
    buildMachines resolve (some cl) acc (pre.map some ++ rest)
      = buildMachines resolve (some cl) (acc ++ managers) rest := by
  induction hpre generalizing acc with
  | nil => simp
  | @cons spec m pre' managers' hm _ ih =>
    obtain ⟨out, hc, h⟩ := (NewManager_snd_ok resolve cl spec m hm).1
    have hstep : buildMachines resolve (some cl) acc (some spec :: (pre'.map some ++ rest))
        = buildMachines resolve (some cl) (acc ++ [m]) (pre'.map some ++ rest) := by
      rw [buildMachines, h]
      simp only [hc]
    rw [List.map_cons, List.cons_append, hstep, ih (acc ++ [m])]
    simp

theorem forall₂_Spec (resolve : String → Except GoError String) (cl : Client)
    (pre : List Spec) (managers : List Manager)
    (hpre : List.Forall₂
      (fun spec m => (NewManager resolve (some cl) (some spec)).2 = .ok m) pre managers) :
    managers.map (fun m => m.Spec) = pre ∧
    ∀ m ∈ managers, ∃ ip1 ip2 ip3, m = freshManager m.Spec ip1 ip2 ip3 := by
  induction hpre with
  | nil => simp
  | @cons spec m pre' managers' hm _ ih =>
    obtain ⟨ip1, ip2, ip3, hfresh⟩ := (NewManager_snd_ok resolve cl spec m hm).2
    have hspec : m.Spec = spec := by rw [hfresh]; rfl
    refine ⟨by simp [hspec, ih.1], ?_⟩
    intro m' hm'
    rcases List.mem_cons.mp hm' with h | h
    · subst h
      exact ⟨ip1, ip2, ip3, by rw [hspec]; exact hfresh⟩
    · exact ih.2 m' h

theorem shortcuts_get? : ∀ i, i < 26 → shortcuts.get? i = some (Char.ofNat (97 + i)) := by
  decide

theorem shortcuts_nodup : shortcuts.Nodup := by
  decide

theorem addItems_eq (ms : List Manager) (i : Nat) (items : List ListItem)
    (h : i + ms.length ≤ 26) :
    addItems i ms items = .ok (items ++ expectedItems i (ms.map fun m => m.Spec)) := by
  induction ms generalizing i items with
  | nil => simp [addItems, expectedItems]
  | cons m rest ih =>
    have hi : i < 26 := by
      simp only [List.length_cons] at h
      omega
    have hrest : i + 1 + rest.length ≤ 26 := by
      simp only [List.length_cons] at h
      omega
    rw [addItems, shortcuts_get? i hi]
    simp only []
    rw [ih (i + 1) _ hrest]
    simp [expectedItems]

theorem expectedItems_length (specs : List Spec) (i : Nat) :
    (expectedItems i specs).length = specs.length := by
  induction specs generalizing i with
  | nil => rfl
  | cons sp rest ih => simp [expectedItems, ih]

theorem expectedItems_get? (specs : List Spec) (i j : Nat) (sp : Spec)
    (h : specs.get? j = some sp) :
    (expectedItems i specs).get? j
      = some { mainText := sp.Name, secondaryText := sp.FQDN,
               shortcut := Char.ofNat (97 + (i + j)), index := i + j } := by
  induction specs generalizing i j with
  | nil => simp at h
  | cons sp' rest ih =>
    cases j with
    | zero =>
      simp only [List.get?_cons_zero, Option.some.injEq] at h
      subst h
      simp [expectedItems]
    | succ j =>
      simp only [List.get?_cons_succ] at h
      have := ih (i + 1) j h
      simp only [expectedItems, List.get?_cons_succ]
      rw [this]
      have e : i + 1 + j = i + (j + 1) := by omega
      rw [e]

theorem expectedItems_shortcuts (specs : List Spec) (i : Nat) (h : i + specs.length ≤ 26) :
    (expectedItems i specs).map (fun it => it.shortcut)
      = (shortcuts.drop i).take specs.length := by
  induction specs generalizing i with
  | nil => simp [expectedItems]
  | cons sp rest ih =>
    have hi : i < 26 := by
      simp only [List.length_cons] at h
      omega
    have hrest : i + 1 + rest.length ≤ 26 := by
      simp only [List.length_cons] at h
      omega
    have hlen : i < shortcuts.length := by
      have : shortcuts.length = 26 := by decide
      omega
    have hget : shortcuts[i] = Char.ofNat (97 + i) := by
      have h1 := shortcuts_get? i hi
      rw [List.get?_eq_getElem?, List.getElem?_eq_getElem hlen] at h1
      exact Option.some.inj h1
    rw [List.drop_eq_getElem_cons hlen, hget]
    simp [expectedItems, ih (i + 1) hrest]

theorem expectedItems_nodup (specs : List Spec) (h : specs.length ≤ 26) :
    ((expectedItems 0 specs).map (fun it => it.shortcut)).Nodup := by
  rw [expectedItems_shortcuts specs 0 (by omega)]
  simp only [List.drop_zero]
  exact List.Nodup.sublist (List.take_sublist _ _) shortcuts_nodup

theorem exists_forall₂_of_forall_exists {α β : Type} (P : α → β → Prop) (l : List α)
    (h : ∀ a ∈ l, ∃ b, P a b) : ∃ bs, List.Forall₂ P l bs := by
  induction l with
  | nil => exact ⟨[], List.Forall₂.nil⟩
  | cons a rest ih =>
    obtain ⟨b, hb⟩ := h a (List.mem_cons_self _ _)
    obtain ⟨bs, hbs⟩ := ih (fun a' ha' => h a' (List.mem_cons_of_mem _ ha'))
    exact ⟨b :: bs, List.Forall₂.cons hb hbs⟩

/-- C8, as stated, fails: with three specs of which the second has no usable
IPv4 address, the build returns the failure of the second, but the manager
built for the first is still there with its three pingers registered and
running (none has been stopped), while the client it polls with has been
closed by the failing `NewManager`. -/
theorem build_failure_leaves_managers_running :
    machineStatusGrid resolveLiteral (some { closed := false })
        [some node1, some nodeNoV4, some node2]
      = ({ client := some { closed := true }, managers := [manager1] },
         .err (.Wrapf (.Wrapf (.Wrapf (.External "lookup <nil>: no such host")
                   "failed to create %q pinger" "ipv4")
                 "failed to add pinger for %q" "node4")
               "failed to create machine manager for %s" "node4")) ∧
    (manager1.pingers.getD []).map (fun p => (p.1, p.2.done))
      = [("ipmi", false), ("ipv4", false), ("ipv6", false)] := by
  decide

/-- C8, amended.  `machineStatusGrid` constructs the managers in input order;
if the managers for the specs before position `i` are built and construction
for the spec at position `i` fails, the build returns that failure, wrapped
with the name of the machine, constructs nothing further, and stops none of
the managers already built: each of them is left exactly as `NewManager`
returned it, with its three pingers registered and running. -/
theorem build_failure_returns_without_stopping (resolve : String → Except GoError String)
    (cl : Client) (pre : List Spec) (managers : List Manager) (sp : Spec)
    (post : List (Option Spec)) (e : GoError)
    (hpre : List.Forall₂
      (fun spec m => (NewManager resolve (some cl) (some spec)).2 = .ok m) pre managers)
    (hfail : (NewManager resolve (some cl) (some sp)).2 = .err e) :
    machineStatusGrid resolve (some cl) (pre.map some ++ some sp :: post)
      = ({ client := some { closed := true }, managers := managers },
         .err (.Wrapf e "failed to create machine manager for %s" sp.Name)) ∧
    managers.map (fun m => m.Spec) = pre ∧
    ∀ m ∈ managers, ∃ ip1 ip2 ip3, m = freshManager m.Spec ip1 ip2 ip3 := by
  refine ⟨?_, forall₂_Spec resolve cl pre managers hpre⟩
  have hb : buildMachines resolve (some cl) [] (pre.map some ++ some sp :: post)
      = ({ client := some { closed := true }, managers := managers },
         .err (.Wrapf e "failed to create machine manager for %s" sp.Name)) := by
    obtain ⟨out, hc, hnew⟩ := NewManager_snd_err resolve cl sp e hfail
    rw [buildMachines_built resolve cl pre managers hpre, buildMachines, hnew]
    simp [hc]
  unfold machineStatusGrid
  rw [hb]

/-- Instance of the amended C8: `node1` is built, `nodeNoV4` fails, `node2` is
never reached. -/
theorem build_failure_returns_without_stopping_witness :
    machineStatusGrid resolveLiteral (some { closed := false })
        ([node1].map some ++ some nodeNoV4 :: [some node2])
      = ({ client := some { closed := true }, managers := [manager1] },
         .err (.Wrapf (.Wrapf (.Wrapf (.External "lookup <nil>: no such host")
                   "failed to create %q pinger" "ipv4")
                 "failed to add pinger for %q" "node4")
               "failed to create machine manager for %s" nodeNoV4.Name)) ∧
    [manager1].map (fun m => m.Spec) = [node1] ∧
    ∀ m ∈ [manager1], ∃ ip1 ip2 ip3, m = freshManager m.Spec ip1 ip2 ip3 :=
  build_failure_returns_without_stopping resolveLiteral { closed := false } [node1]
    [manager1] nodeNoV4 [some node2] _
    (List.Forall₂.cons (by decide) List.Forall₂.nil) (by decide)

/-- C9 on the code: with an empty list of specs the build loop does nothing
and `machines[0]` is then evaluated on the empty slice, so
`machineStatusGrid` panics with an index out of range, for every resolver and
every client. -/
theorem empty_specs_panics (resolve : String → Except GoError String) (c : Option Client) :
    machineStatusGrid resolve c []
      = ({ client := c, managers := [] }, .panic "index out of range [0] with length 0") := by
  rfl

/-- C10. For a list of `n` specs with `1 ≤ n ≤ 26` whose managers can all be
constructed, `machineStatusGrid` returns (no index leaves the `shortcuts`
table), its machines are those of the specs in input order, the list has one
entry per spec in input order, the entry at position `i` carries the name and
FQDN of that spec and the `i`-th letter from `a` as shortcut, which is
`shortcuts[i]`, and the shortcuts of the entries are pairwise distinct. -/
theorem grid_shortcuts_in_range (resolve : String → Except GoError String)
    (c : Option Client) (specs : List Spec)
    (h1 : 1 ≤ specs.length) (h26 : specs.length ≤ 26)
    (hok : ∀ sp ∈ specs, ∃ m, (NewManager resolve c (some sp)).2 = .ok m) :
    ∃ v, (machineStatusGrid resolve c (specs.map some)).2 = .ok v ∧
      v.g.machines.map (fun m => m.Spec) = specs ∧
      v.list.length = specs.length ∧
      (∀ i sp, specs.get? i = some sp →
        v.list.get? i = some { mainText := sp.Name, secondaryText := sp.FQDN,
                               shortcut := Char.ofNat (97 + i), index := i } ∧
        shortcuts.get? i = some (Char.ofNat (97 + i))) ∧
      (v.list.map (fun it => it.shortcut)).Nodup := by
  obtain ⟨cl, rfl⟩ : ∃ cl, c = some cl := by
    cases c with
    | some cl => exact ⟨cl, rfl⟩
    | none =>
      cases specs with
      | nil => simp at h1
      | cons sp rest =>
        obtain ⟨m, hm⟩ := hok sp (List.mem_cons_self _ _)
        simp [NewManager] at hm
  obtain ⟨managers, hpre⟩ := exists_forall₂_of_forall_exists
    (fun spec m => (NewManager resolve (some cl) (some spec)).2 = .ok m) specs hok
  obtain ⟨hspecs, _⟩ := forall₂_Spec resolve cl specs managers hpre
  have hlen : managers.length = specs.length := hpre.length_eq.symm
  have hb : buildMachines resolve (some cl) [] (specs.map some)
      = ({ client := some cl, managers := managers }, .ok ()) := by
    have := buildMachines_built resolve cl specs managers hpre [] []
    simpa [buildMachines] using this
  have hitems : addItems 0 managers [] = .ok (expectedItems 0 specs) := by
    rw [addItems_eq managers 0 [] (by omega), hspecs]
    simp
  cases hmgr : managers with
  | nil =>
    rw [hmgr] at hlen
    simp at hlen
    omega
  | cons m0 rest =>
    refine ⟨{ g := { machines := managers, selectedMachine := m0 },
              list := expectedItems 0 specs }, ?_, hspecs, ?_, ?_, ?_⟩
    · unfold machineStatusGrid
      rw [hb]
      simp only []
      rw [hitems]
      simp only [hmgr]
    · exact expectedItems_length specs 0
    · intro i sp hi
      have hilt : i < 26 := by
        have : i < specs.length := by
          rw [List.get?_eq_getElem?] at hi
          exact (List.getElem?_eq_some.mp hi).1
        omega
      refine ⟨?_, shortcuts_get? i hilt⟩
      have := expectedItems_get? specs 0 i sp hi
      simpa using this
    · exact expectedItems_nodup specs h26

/-- Instance of C10 on the two machines `node1` and `node2`. -/
theorem grid_shortcuts_in_range_witness :
    ∃ v, (machineStatusGrid resolveLiteral (some { closed := false })
            ([node1, node2].map some)).2 = .ok v ∧
      v.g.machines.map (fun m => m.Spec) = [node1, node2] ∧
      v.list.length = [node1, node2].length ∧
      (∀ i sp, [node1, node2].get? i = some sp →
        v.list.get? i = some { mainText := sp.Name, secondaryText := sp.FQDN,
                               shortcut := Char.ofNat (97 + i), index := i } ∧
        shortcuts.get? i = some (Char.ofNat (97 + i))) ∧
      (v.list.map (fun it => it.shortcut)).Nodup :=
  grid_shortcuts_in_range resolveLiteral (some { closed := false }) [node1, node2]
    (by decide) (by decide)
    (by
      intro sp hsp
      simp only [List.mem_cons, List.mem_singleton, List.not_mem_nil, or_false] at hsp
      rcases hsp with h | h
      · subst h
        exact ⟨freshManager node1 "10.0.1.1" "10.0.0.1" "fd00::1", by decide⟩
      · subst h
        exact ⟨freshManager node2 "10.0.1.2" "10.0.0.2" "fd00::2", by decide⟩)

/-! ## The end-to-end scenarios of the spec, run on the model -/

/-- Scenario S1: a reply on IPv4 at 0.3 s and one successful poll tick lead from
the manager that `NewManager` returns to the steady state; at 0.5 s IPv4 is up,
the two services and the version read as reported. -/
theorem scenario_cold_start :
    (NewManager resolveLiteral (some { closed := false }) (some node1)).2 = .ok manager1 ∧
    run (System.launch manager1 { closed := false } false)
        (.reply "ipv4" 300000000 :: tickEvents servicesS1 versionS1) = .ok steady ∧
    steady.m.PingUp 500000000 "ipv4" = true ∧
    steady.m.ServiceState "kubelet" = "running" ∧
    steady.m.ServiceState "bootkube" = "finished" ∧
    steady.m.Version = "v1.2.3" := by
  decide

/-- Scenario S2: a single reply at 0.3 s is fresh 1.9 s later, stale 2.1 s
later, and already stale exactly 2 s later. -/
theorem scenario_liveness_decay :
    steady.m.PingUp 2200000000 "ipv4" = true ∧
    steady.m.PingUp 2400000000 "ipv4" = false ∧
    steady.m.PingUp 2300000000 "ipv4" = false ∧
    steady.m.PingUp 2299999999 "ipv4" = true := by
  decide

/-- Scenario S3: after a tick whose two RPCs fail, `kubelet` reads `unknown`
and the version is still the last reported tag. -/
theorem scenario_transient_rpc_loss :
    (steady.m.pollTick (.error rpcDown) (.error rpcDown)).ServiceState "kubelet" = "unknown" ∧
    (steady.m.pollTick (.error rpcDown) (.error rpcDown)).Version = "v1.2.3" := by
  decide

/-- Scenario S4: after a successful tick that reports `kubelet` alone,
`bootkube` reads `unknown`. -/
theorem scenario_service_disappears :
    (steady.m.pollTick (.ok [{ Services := [{ Id := "kubelet", State := "running" }] }])
        versionS1).ServiceState "bootkube" = "unknown" ∧
    (steady.m.pollTick (.ok [{ Services := [{ Id := "kubelet", State := "running" }] }])
        versionS1).ServiceState "kubelet" = "running" := by
  decide

end Talosmon
